import Mathlib

/-!
Formal model of the dang3r/devtree repository: identifier matching,
predicate aggregation, device database updates, the stage runner, graph
building/export and the longest-chain search.  Every definition below is
transcribed from the Python sources under `code/`; the source file and
line numbers are given in the doc comments.
-/

namespace Devtree

/-- ASCII decimal digit test, modelling `\d` of the regular expression
`K\d{6}` (`code/pipeline/extract.py` line 26, `code/extractor.py` line 14).
The Python pattern would additionally accept non-ASCII Unicode digits;
the texts handled by the repository are ASCII. -/
def isDig (c : Char) : Bool := '0' ≤ c && c ≤ '9'

/-- `K_NUMBER_PATTERN.findall(text)` for the pattern `K\d{6}`
(`code/pipeline/extract.py` line 26, `code/extractor.py` line 14): scan
left to right; at a position starting with a literal uppercase `K`
followed by exactly six digits emit those seven characters and resume
after the match (matches are non-overlapping), otherwise advance one
character. -/
def findallK : List Char → List (List Char)
  | 'K' :: c1 :: c2 :: c3 :: c4 :: c5 :: c6 :: rest =>
    if isDig c1 && isDig c2 && isDig c3 && isDig c4 && isDig c5 && isDig c6 then
      ['K', c1, c2, c3, c4, c5, c6] :: findallK rest
    else
      findallK (c1 :: c2 :: c3 :: c4 :: c5 :: c6 :: rest)
  | _ :: cs => findallK cs
  | [] => []

/-- The dedup-preserving-first-occurrence loop of
`code/extractor.py` lines 50–57 (`seen` set plus `unique` list). -/
def dedupFirstAux (seen : List String) : List String → List String
  | [] => []
  | m :: ms => if m ∈ seen then dedupFirstAux seen ms
               else m :: dedupFirstAux (m :: seen) ms

/-- `extract_k_numbers` of `code/extractor.py` lines 47–57: find all
matches of `K\d{6}` and remove duplicates preserving first-occurrence
order. -/
def extract_k_numbers (text : String) : List String :=
  dedupFirstAux [] ((findallK text.data).map fun l => String.mk l)

/-- `extract_k_numbers` of `code/pipeline/extract.py` lines 104–107:
`return list(set(matches))`.  The enumeration order of a Python `set` is
an implementation detail (hash-based and randomized per process), so the
`list(set(...))` conversion is modelled by an arbitrary enumeration
function `enum` whose only guarantee is that it returns the distinct
matches in some order, i.e. a permutation of `List.dedup` of the match
list. -/
def extract_k_numbers_pipeline (enum : List String → List String)
    (text : String) : List String :=
  enum ((findallK text.data).map fun l => String.mk l)

/-! ### Association-list helpers

Python `dict`s preserve insertion order; they are modelled as ordered
association lists.  `alookup` is `d[k]` / `d.get(k)`, `setEntry` is
assignment to an existing key (in place), `dinsert` is `d[k] = v`
(replace in place when the key exists, else append), `delEntry` removes
a key and `hasKey` is `k in d`. -/

/-- Lookup the first value bound to `k`. -/
def alookup {α : Type} (k : String) : List (String × α) → Option α
  | [] => none
  | (k', v) :: rest => if k' = k then some v else alookup k rest

/-- Replace the value at key `k` in place (no-op when absent). -/
def setEntry {α : Type} (k : String) (v : α) : List (String × α) → List (String × α)
  | [] => []
  | (k', v') :: rest => if k' = k then (k', v) :: rest else (k', v') :: setEntry k v rest

/-- Python `d[k] = v`: replace in place when present, append otherwise. -/
def dinsert {α : Type} (k : String) (v : α) (l : List (String × α)) : List (String × α) :=
  if (alookup k l).isSome then setEntry k v l else l ++ [(k, v)]

/-- Remove the binding of key `k`. -/
def delEntry {α : Type} (k : String) : List (String × α) → List (String × α)
  | [] => []
  | (k', v') :: rest => if k' = k then rest else (k', v') :: delEntry k rest

/-- Python `k in d`. -/
def hasKey {α : Type} (l : List (String × α)) (k : String) : Bool :=
  l.any (fun q => q.1 = k)

/-! ### Predicate aggregation

Transcription of `aggregate_predicates` from `code/pipeline/aggregate.py`
lines 47–76 (the near-identical copy in `code/pipeline/pipeline.py` lines
165–188 runs the same selection over a table differing only in the
spelling of the `regex`+ministral key). -/

/-- The `ExtractionResult` consumed by `aggregate_predicates`
(fields read in `code/pipeline/aggregate.py` lines 56–72: `device_id`,
`predicates`, `method`, `source`, `type`, `error`). -/
structure ExtractionResult where
  device_id : String
  predicates : List String
  method : String
  source : String
  type : String
  error : Option String := none
deriving DecidableEq, Repr

/-- `NEW_EXTRACTION_PRIORITY` of `code/pipeline/aggregate.py` lines 30–39. -/
def NEW_EXTRACTION_PRIORITY : List (String × Nat) :=
  [ ("human_raw", 0)
  , ("claude_code_raw", 1)
  , ("ollama_ministral-3:3b_ministral", 2)
  , ("ollama_ministral-3:3b_pymupdf", 3)
  , ("ollama_ministral-3:3b_tesseract", 4)
  , ("regex_ministral3b", 6)
  , ("regex_pymupdf", 7)
  , ("regex_tesseract", 8) ]

/-- `NEW_EXTRACTION_PRIORITY.get(key, 99)` (`aggregate.py` line 59). -/
def priorityOf (key : String) : Nat :=
  match alookup key NEW_EXTRACTION_PRIORITY with
  | some p => p
  | none => 99

/-- Python truthiness of the optional `error` field: `None` and the empty
string are falsy, so `not extract_result.error` passes exactly for these. -/
def errorFalsy : Option String → Bool
  | none => true
  | some s => s = ""

/-- Append `pr` to the bucket of device `d` in the insertion-ordered
`by_device` dict, creating the bucket at the end when absent
(`aggregate.py` lines 60–62). -/
def addEntry (d : String) (pr : Nat × ExtractionResult) :
    List (String × List (Nat × ExtractionResult)) →
    List (String × List (Nat × ExtractionResult))
  | [] => [(d, [pr])]
  | (k, v) :: rest =>
    if k = d then (k, v ++ [pr]) :: rest else (k, v) :: addEntry d pr rest

/-- One step of the loop of `aggregate.py` lines 56–62: results that are
`None` or have a truthy `error` are dropped; the rest are appended to
their device's bucket together with their priority. -/
def byDeviceStep (acc : List (String × List (Nat × ExtractionResult)))
    (o : Option ExtractionResult) : List (String × List (Nat × ExtractionResult)) :=
  match o with
  | none => acc
  | some r =>
    if errorFalsy r.error then addEntry r.device_id (priorityOf r.type, r) acc
    else acc

/-- The `by_device` dict of `aggregate.py` lines 54–62. -/
def byDevice (rs : List (Option ExtractionResult)) :
    List (String × List (Nat × ExtractionResult)) :=
  rs.foldl byDeviceStep []

/-- Python `min(entries, key=lambda x: x[0])` keeps the first element and
replaces it only on a strictly smaller key, so ties resolve to the
earliest entry (`aggregate.py` line 66). -/
def pyMinBy (best : Nat × ExtractionResult) :
    List (Nat × ExtractionResult) → Nat × ExtractionResult
  | [] => best
  | y :: ys => pyMinBy (if y.1 < best.1 then y else best) ys

/-- The per-device value stored in the aggregated dict
(`aggregate.py` lines 67–72). -/
structure AggEntry where
  predicates : List String
  method : String
  source : String
  type : String
deriving DecidableEq, Repr

/-- Build the aggregated value from the winning result. -/
def mkAggEntry (r : ExtractionResult) : AggEntry :=
  { predicates := r.predicates, method := r.method, source := r.source, type := r.type }

/-- Concrete result fixture: a human override (priority 0). -/
def exHuman : ExtractionResult :=
  { device_id := "K000001", predicates := ["K111111"], method := "human"
  , source := "raw", type := "human_raw" }

/-- Concrete result fixture: a regex-on-raw-text result (priority 7). -/
def exRegex : ExtractionResult :=
  { device_id := "K000001", predicates := ["K222222"], method := "regex"
  , source := "raw", type := "regex_pymupdf" }

/-- Concrete result fixture: tag absent from `aggregate.py`'s table
(`"regex_ministral"` is spelled `"regex_ministral3b"` there). -/
def exUnlisted : ExtractionResult :=
  { device_id := "K000002", predicates := ["K333333"], method := "regex"
  , source := "ministral", type := "regex_ministral" }

/-- Concrete result fixture: a human override for the second device. -/
def exHuman2 : ExtractionResult :=
  { device_id := "K000002", predicates := ["K444444"], method := "human"
  , source := "raw", type := "human_raw" }

/-- Insert into a key-sorted association list (ascending keys). -/
def insertSortedAgg (p : String × AggEntry) :
    List (String × AggEntry) → List (String × AggEntry)
  | [] => [p]
  | q :: rest => if q.1 < p.1 then q :: insertSortedAgg p rest else p :: q :: rest

/-- `dict(sorted(aggregated.items(), key=lambda x: x[0]))` of
`aggregate.py` line 75: the aggregated dict re-ordered by ascending
device id (keys are unique, so any correct sort produces this list). -/
def sortByKeyAgg (l : List (String × AggEntry)) : List (String × AggEntry) :=
  l.foldr insertSortedAgg []

/-- The body of the winner loop of `aggregate.py` lines 65–72: from a
device's bucket, `min(entries, key=lambda x: x[0])[1]` projected to the
stored fields.  A bucket is never empty (it is created with its first
entry); the `[]` case is unreachable. -/
def selectBest (p : String × List (Nat × ExtractionResult)) :
    Option (String × AggEntry) :=
  match p.2 with
  | [] => none
  | e :: es => some (p.1, mkAggEntry (pyMinBy e es).2)

/-- `aggregate_predicates` of `code/pipeline/aggregate.py` lines 47–76:
group error-free results by device, pick the entry with the smallest
priority per device (`min`), keep its `predicates`/`method`/`source`/`type`,
and sort the resulting dict by device id. -/
def aggregate_predicates (rs : List (Option ExtractionResult)) :
    List (String × AggEntry) :=
  sortByKeyAgg ((byDevice rs).filterMap selectBest)

/-- The error-free results of device `d`, in input order: exactly the
results a run of the `aggregate.py` lines 56–62 loop appends to the
bucket of `d`. -/
def eligResults (rs : List (Option ExtractionResult)) (d : String) :
    List ExtractionResult :=
  (rs.filterMap (fun o =>
    match o with
    | some r => if errorFalsy r.error then some r else none
    | none => none)).filter (fun r => r.device_id = d)

/-- The bucket contents device `d` accumulates: its error-free results
paired with their priorities, in input order. -/
def eligPairs (rs : List (Option ExtractionResult)) (d : String) :
    List (Nat × ExtractionResult) :=
  (eligResults rs d).map (fun r => (priorityOf r.type, r))

/-- How a run of the grouping loop extends the bucket of one device. -/
def combineBucket (o : Option (List (Nat × ExtractionResult)))
    (es : List (Nat × ExtractionResult)) : Option (List (Nat × ExtractionResult)) :=
  match o with
  | some v => some (v ++ es)
  | none => if es = [] then none else some es

/-! ### Device database (`code/pipeline/db.py`)

`db.json` entries.  The Python `DeviceEntry` declares `predicates`,
`pdf_present` and `errors`; the remaining attributes (`human_verified`,
`extraction_method`, `chars_per_page`, `flags`, `last_processed`, ...)
are set dynamically by `update_device_from_extraction` /
`set_human_verified` and read by `get_devices_needing_processing` and
`save_db`, so they are modelled as fields with the obvious defaults.
`chars_per_page` (a Python float) is modelled as a rational;
`last_processed` (an ISO timestamp string parsed back with
`datetime.fromisoformat`) is modelled as a day count, `none` covering
both an unset and an unparseable value — all three are observed only
through the comparisons below. -/

/-- Error strings tracked per device (`db.py` lines 16–21). -/
structure DeviceErrors where
  download_error : Option String := none
  extraction_error : Option String := none
  ocr_error : Option String := none
deriving DecidableEq, Repr

/-- A device entry of `db.json` (`db.py` lines 35–43 plus the
dynamically-assigned attributes). -/
structure DeviceEntry where
  predicates : List String := []
  pdf_present : Bool := false
  errors : DeviceErrors := {}
  human_verified : Bool := false
  extraction_method : String := "none"
  text_length : Nat := 0
  chars_per_page : Rat := 0
  page_count : Nat := 0
  flags : List String := []
  last_processed : Option Int := none
deriving DecidableEq, Repr

/-- The root `db.json` structure (`db.py` lines 46–53); only the ordered
`devices` dict is relevant to the modelled operations. -/
structure DeviceDatabase where
  devices : List (String × DeviceEntry) := []
deriving DecidableEq, Repr

/-- Insertion sort step for plain strings (ascending). -/
def insertSortedStr (s : String) : List String → List String
  | [] => [s]
  | t :: rest => if t < s then t :: insertSortedStr s rest else s :: t :: rest

/-- Python `sorted` on a list of strings (stable; keys here are unique or
order-irrelevant, so any correct sort is faithful). -/
def sortStrings (l : List String) : List String :=
  l.foldr insertSortedStr []

/-- `get_devices_needing_processing` of `db.py` lines 84–119:
`new_devices = sorted(fda_k_numbers - existing)` and the reprocess scan
(PDF present, not human-verified, `pymupdf` extraction with
`chars_per_page < 50`, last processed after `now - reprocess_months*30`
days).  `fda_k_numbers` is a Python set, modelled as a deduplicated
list. -/
def get_devices_needing_processing (db : DeviceDatabase)
    (fda_k_numbers : List String) (now : Int) (reprocess_months : Int) :
    List String × List String :=
  let existing := db.devices.map Prod.fst
  let new_devices :=
    sortStrings ((fda_k_numbers.filter (fun k => ¬ k ∈ existing)).dedup)
  let cutoff := now - reprocess_months * 30
  let reprocess := db.devices.filterMap (fun p =>
    if ¬ p.2.pdf_present then none
    else if p.2.human_verified then none
    else if p.2.extraction_method = "pymupdf" ∧ p.2.chars_per_page < 50 then
      match p.2.last_processed with
      | some t => if cutoff < t then some p.1 else none
      | none => none
    else none)
  (new_devices, sortStrings reprocess)

/-- `update_device_from_extraction` of `db.py` lines 138–166: create the
entry when absent, then unconditionally overwrite the predicate list and
extraction metadata; error strings are recorded only when truthy. -/
def update_device_from_extraction (db : DeviceDatabase) (k_number : String)
    (predicates : List String) (extraction_method : String) (text_length : Nat)
    (chars_per_page : Rat) (page_count : Nat) (flags : List String)
    (extraction_error : Option String) (ocr_error : Option String) (now : Int) :
    DeviceDatabase :=
  let devices :=
    if (alookup k_number db.devices).isSome then db.devices
    else db.devices ++ [(k_number, ({} : DeviceEntry))]
  let entry := (alookup k_number devices).getD ({} : DeviceEntry)
  let entry := { entry with
    predicates := predicates
    extraction_method := extraction_method
    text_length := text_length
    chars_per_page := chars_per_page
    page_count := page_count
    flags := flags
    last_processed := some now }
  let entry :=
    if ¬ errorFalsy extraction_error then
      { entry with errors := { entry.errors with extraction_error := extraction_error } }
    else entry
  let entry :=
    if ¬ errorFalsy ocr_error then
      { entry with errors := { entry.errors with ocr_error := ocr_error } }
    else entry
  { db with devices := setEntry k_number entry devices }

/-- `set_human_verified` of `db.py` lines 169–182: mark an existing
device as human verified, optionally replacing its predicates; returns
whether the device was found. -/
def set_human_verified (db : DeviceDatabase) (k_number : String)
    (predicates : Option (List String)) : DeviceDatabase × Bool :=
  match alookup k_number db.devices with
  | none => (db, false)
  | some entry =>
    let entry :=
      match predicates with
      | some ps => { entry with predicates := ps }
      | none => entry
    let entry := { entry with human_verified := true }
    ({ db with devices := setEntry k_number entry db.devices }, true)

/-! ### Stage runner (`code/pipeline/pipeline.py` lines 80–140)

`run_stage` partitions `items` by the skip predicate, submits the rest
and sorts each completed future into `succeeded` (no/falsy `error` on the
result) or `failed` (truthy `error`, or an exception, recorded with
`str(e)`).  `as_completed` yields futures in an arbitrary completion
order, modelled by the explicit `completionOrder` argument (a permutation
of the submitted items).  The progress print at line 114 computes
`idx % (len(futures) // 10)` on every iteration; when fewer than ten
items were submitted the divisor is zero and Python raises
`ZeroDivisionError`, which no handler in `run_stage` catches, so the
whole call aborts — modelled as the `Except.error` outcome. -/

/-- A task result as consumed by `run_stage` (only its `error` attribute
is inspected, at `pipeline.py` line 121). -/
structure TaskRes where
  error : Option String := none
deriving DecidableEq, Repr

/-- Python truthiness of `result.error` (`pipeline.py` line 121). -/
def errorTruthy : Option String → Bool
  | none => false
  | some s => ¬ s = ""

/-- A `failed` entry: either `(item_id, result)` for a result carrying a
truthy error, or `(item_id, str(e))` for a raised exception
(`pipeline.py` lines 122 and 128). -/
inductive FailEntry
  | res (r : TaskRes)
  | exn (msg : String)
deriving DecidableEq, Repr

/-- The fields of `StageResult` relevant to item accounting
(`pipeline.py` lines 55–64; timing and the heterogeneous `results`
concatenation are omitted). -/
structure StageResult where
  succeeded : List (String × TaskRes)
  failed : List (String × FailEntry)
  skipped : List String
deriving DecidableEq, Repr

/-- The `as_completed` loop body of `pipeline.py` lines 113–128 (minus
the progress print), folded over the completion order. -/
def processItems (task_fn : String → Except String TaskRes) :
    List String → List (String × TaskRes) → List (String × FailEntry) →
    List (String × TaskRes) × List (String × FailEntry)
  | [], succ, fail => (succ, fail)
  | i :: rest, succ, fail =>
    match task_fn i with
    | .error e => processItems task_fn rest succ (fail ++ [(i, .exn e)])
    | .ok r =>
      if errorTruthy r.error then processItems task_fn rest succ (fail ++ [(i, .res r)])
      else processItems task_fn rest (succ ++ [(i, r)]) fail

/-- `run_stage` of `code/pipeline/pipeline.py` lines 80–140.  A raising
`task_fn i` is `Except.error (str e)`; the returned `Except.error` of
`run_stage` itself models an uncaught exception escaping the call (the
`ZeroDivisionError` of the progress print at line 114). -/
def run_stage (items : List String) (task_fn : String → Except String TaskRes)
    (skip_fn : String → Bool) (completionOrder : List String) :
    Except String StageResult :=
  let skipped := items.filter skip_fn
  let to_process := items.filter (fun i => ¬ skip_fn i)
  if ¬ completionOrder = [] ∧ to_process.length / 10 = 0 then
    .error "ZeroDivisionError"
  else
    let (succ, fail) := processItems task_fn completionOrder [] []
    .ok { succeeded := succ, failed := fail, skipped := skipped }

/-! ### Graph building and export (`code/pipeline/graph.py`) -/

/-- The fields of a raw FDA device record read by `load_fda_data` and
`extract_device_node` (`graph.py` lines 58–71 and 137–159); every field
is optional in the source dict (`device.get`). -/
structure RawDevice where
  k_number : Option String := none
  device_name : Option String := none
  applicant : Option String := none
  contact : Option String := none
  decision_date : Option String := none
  openfda_device_class : Option String := none
  product_code : Option String := none
  advisory_committee_description : Option String := none
  date_received : Option String := none
  country_code : Option String := none
  state : Option String := none
deriving DecidableEq, Repr

/-- `DeviceNode` of `graph.py` lines 16–29. -/
structure DeviceNode where
  device_name : String
  applicant : String
  contact : Option String := none
  decision_date : Option String := none
  device_class : Option String := none
  product_code : Option String := none
  specialty : Option String := none
  date_received : Option String := none
  country_code : Option String := none
  state : Option String := none
deriving DecidableEq, Repr

/-- `Edge` of `graph.py` lines 32–36. -/
structure Edge where
  source : String
  target : String
deriving DecidableEq, Repr

/-- `GraphMetadata` of `graph.py` lines 39–47.
`nodes_without_predicates = len(nodes) - len(predicates)` is a Python
`int` and may be negative, hence `Int`. -/
structure GraphMetadata where
  generated_at : String
  total_nodes : Nat
  total_edges : Nat
  nodes_with_predicates : Nat
  nodes_without_predicates : Int
  orphan_predicates : Nat
deriving DecidableEq, Repr

/-- `DeviceGraph` of `graph.py` lines 50–55; `export_graph` (lines
211–217) serializes exactly this value, so the raw export is identified
with it. -/
structure DeviceGraph where
  metadata : GraphMetadata
  nodes : List (String × DeviceNode)
  edges : List Edge
deriving DecidableEq, Repr

/-- `load_fda_data` of `graph.py` lines 58–71: index the `results` array
by `k_number`, skipping records whose `k_number` is missing or empty
(Python falsy); a repeated key overwrites in place. -/
def load_fda_data (results : List RawDevice) : List (String × RawDevice) :=
  results.foldl (fun acc d =>
    match d.k_number with
    | some k => if k = "" then acc else dinsert k d acc
    | none => acc) []

/-- `extract_device_node` of `graph.py` lines 137–159: field fallbacks
(`"Unknown"` for name and applicant, `None` elsewhere). -/
def extract_device_node (device : RawDevice) : DeviceNode :=
  { device_name := device.device_name.getD "Unknown"
  , applicant := device.applicant.getD "Unknown"
  , contact := device.contact
  , decision_date := device.decision_date
  , device_class := device.openfda_device_class
  , product_code := device.product_code
  , specialty := device.advisory_committee_description
  , date_received := device.date_received
  , country_code := device.country_code
  , state := device.state }

/-- The edge-building loop of `graph.py` lines 189–193: one edge per
`(source, target)` pair, in dict order. -/
def build_edges (predicates : List (String × List String)) : List Edge :=
  predicates.foldl (fun acc p =>
    acc ++ p.2.map (fun t => { source := p.1, target := t })) []

/-- The orphan counter of the same loop (`graph.py` lines 192–193):
the number of built edges whose target is not an FDA device key. -/
def count_orphans (predicates : List (String × List String))
    (fda_devices : List (String × RawDevice)) : Nat :=
  predicates.foldl (fun n p =>
    n + (p.2.filter (fun t => ¬ hasKey fda_devices t)).length) 0

/-- `build_graph` of `graph.py` lines 162–208.  The load of the FDA JSON
is replaced by its parsed `results` array; `generated_at` is
`datetime.now(timezone.utc).isoformat()`, passed in as `now`. -/
def build_graph (results : List RawDevice)
    (predicates : List (String × List String)) (now : String) : DeviceGraph :=
  let fda_devices := load_fda_data results
  let nodes := fda_devices.map (fun p => (p.1, extract_device_node p.2))
  let edges := build_edges predicates
  let metadata : GraphMetadata :=
    { generated_at := now
    , total_nodes := nodes.length
    , total_edges := edges.length
    , nodes_with_predicates := predicates.length
    , nodes_without_predicates := (nodes.length : Int) - (predicates.length : Int)
    , orphan_predicates := count_orphans predicates fda_devices }
  { metadata := metadata, nodes := nodes, edges := edges }

/-- The edge filter of `export_cytoscape` (`graph.py` lines 222–226):
keep only edges whose two endpoints are node keys. -/
def valid_edges (g : DeviceGraph) : List Edge :=
  g.edges.filter (fun e => hasKey g.nodes e.source && hasKey g.nodes e.target)

/-- One `elements.edges` entry of the Cytoscape export
(`graph.py` lines 252–262). -/
structure CytoEdge where
  id : String
  source : String
  target : String
  relationship : String
deriving DecidableEq, Repr

/-- The `elements.edges` list of `export_cytoscape`
(`graph.py` lines 245–263): the valid edges, enumerated. -/
def export_cytoscape_edges (g : DeviceGraph) : List CytoEdge :=
  (valid_edges g).enum.map (fun p =>
    { id := "e" ++ toString p.1
    , source := p.2.source
    , target := p.2.target
    , relationship := "predicate" })

/-! ### Persistence (`code/pipeline/lib.py` lines 96–101 and
`code/pipeline/db.py` lines 66–81)

Saving is modelled at the level of observable file-system operations on
a path → content map.  `open(path, "w")` / the start of
`Path.write_text` truncates (creates or empties) the file; the data then
lands with `append`; `Path.replace` is an atomic rename.  An interrupted
save is a proper leading slice of its operation list. -/

/-- Observable file-system operations. -/
inductive FsOp
  | truncate (path : String)
  | append (path : String) (content : String)
  | rename (src : String) (dst : String)
deriving DecidableEq, Repr

/-- Apply one operation to the file system (path → content map). -/
def applyOp (fs : List (String × String)) : FsOp → List (String × String)
  | .truncate p => dinsert p "" fs
  | .append p c =>
    match alookup p fs with
    | some old => setEntry p (old ++ c) fs
    | none => dinsert p c fs
  | .rename src dst =>
    match alookup src fs with
    | some c => dinsert dst c (delEntry src fs)
    | none => fs

/-- Apply a sequence of operations. -/
def applyOps (fs : List (String × String)) (ops : List FsOp) : List (String × String) :=
  ops.foldl applyOp fs

/-- The operations of `save_db` in `code/pipeline/lib.py` lines 96–101:
write the serialized store to `tmp = path.with_suffix(".tmp")`, then
atomically rename it over `path`.  (For any store path not already
ending in `.tmp`, `tmp ≠ path`.) -/
def lib_save_db_ops (path tmp content : String) : List FsOp :=
  [.truncate tmp, .append tmp content, .rename tmp path]

/-- The operations of `save_db` in `code/pipeline/db.py` lines 66–81:
`open(path, "w")` truncates the store file in place, then `json.dump`
writes into it — no temporary file, no rename. -/
def db_save_db_ops (path content : String) : List FsOp :=
  [.truncate path, .append path content]

/-! ### Longest-chain search (`code/pipeline/analyze.py` lines 204–226)

`_find_longest_path_from_node` runs a depth-first search that never
revisits a node already on the current path (`if succ not in path`) and
keeps the longest path seen in the nonlocal `longest`.  The Python
recursion carries `longest` by mutation; it is modelled by passing the
current `longest` through and returning its final value.  The graph is a
finite directed graph: a node list `V` and a successor function `succs`
mapping every node into `V`.  Python has no fuel parameter; the `fuel`
argument makes the recursion structural, and the termination theorem
shows the search never exhausts `V.length + 1` fuel, i.e. the Python
recursion terminates. -/

mutual

/-- The inner `dfs` of `_find_longest_path_from_node`
(`analyze.py` lines 209–223): at a leaf, update `longest` if the current
path is longer; otherwise explore each successor not already on the path
and finally update `longest` against the current path. -/
def dfsAux (succs : String → List String) : Nat → String → List String →
    List String → Option (List String)
  | 0, _, _, _ => none
  | fuel + 1, node, path, longest =>
    match succs node with
    | [] => some (if longest.length < path.length then path else longest)
    | s :: ss =>
      match dfsLoop succs fuel (s :: ss) path longest with
      | none => none
      | some l => some (if l.length < path.length then path else l)

/-- The `for succ in successors` loop of `analyze.py` lines 217–219. -/
def dfsLoop (succs : String → List String) : Nat → List String → List String →
    List String → Option (List String)
  | _, [], _, longest => some longest
  | fuel, s :: ss, path, longest =>
    if s ∈ path then dfsLoop succs fuel ss path longest
    else
      match dfsAux succs fuel s (path ++ [s]) longest with
      | none => none
      | some l => dfsLoop succs fuel ss path l

end

/-- `_find_longest_path_from_node` of `analyze.py` lines 204–226:
`longest` starts as `[start_node]` and `dfs(start_node, [start_node])`
is run for its effect on `longest`. -/
def find_longest_path_from_node (succs : String → List String)
    (V : List String) (start : String) : Option (List String) :=
  dfsAux succs (V.length + 1) start [start] [start]

/-- A simple directed path starting at `start`: no node repeats, each
step follows a successor edge, and the head is the start node. -/
def GoodPath (succs : String → List String) (start : String) (p : List String) : Prop :=
  p.Nodup ∧ List.Chain' (fun a b => b ∈ succs a) p ∧ p.head? = some start

/-- Adjacency fixture: the 3-cycle A → B → C → A. -/
def cycleAdj : List (String × List String) :=
  [("A", ["B"]), ("B", ["C"]), ("C", ["A"])]

/-- Successor function of the 3-cycle fixture. -/
def succsCycle (n : String) : List String :=
  (alookup n cycleAdj).getD []

/-! ### Theorems -/

/-- Every string emitted by the scanner consists of a literal `K`
followed by exactly six digits. -/
theorem findallK_shape {l : List Char} {m : List Char} (hm : m ∈ findallK l) :
    ∃ c1 c2 c3 c4 c5 c6, m = ['K', c1, c2, c3, c4, c5, c6] ∧
      isDig c1 = true ∧ isDig c2 = true ∧ isDig c3 = true ∧
      isDig c4 = true ∧ isDig c5 = true ∧ isDig c6 = true := by
  induction l using findallK.induct with
  | case1 c1 c2 c3 c4 c5 c6 rest hdig ih =>
    rw [findallK, if_pos hdig] at hm
    rcases List.mem_cons.mp hm with h | h
    · simp only [Bool.and_eq_true] at hdig
      exact ⟨c1, c2, c3, c4, c5, c6, h, hdig.1.1.1.1.1, hdig.1.1.1.1.2,
        hdig.1.1.1.2, hdig.1.1.2, hdig.1.2, hdig.2⟩
    · exact ih h
  | case2 c1 c2 c3 c4 c5 c6 rest hdig ih =>
    rw [findallK, if_neg hdig] at hm
    exact ih hm
  | case3 c cs h1 ih =>
    rw [findallK] at hm
    · exact ih hm
    · exact h1
  | case4 =>
    simp [findallK] at hm

/-- Membership in the first-occurrence dedup loop. -/
theorem mem_dedupFirstAux {x : String} :
    ∀ (ms seen : List String), x ∈ dedupFirstAux seen ms ↔ x ∈ ms ∧ x ∉ seen := by
  intro ms
  induction ms with
  | nil => intro seen; simp [dedupFirstAux]
  | cons m ms ih =>
    intro seen
    by_cases hmem : m ∈ seen
    · rw [dedupFirstAux, if_pos hmem, ih]
      constructor
      · rintro ⟨h1, h2⟩; exact ⟨List.mem_cons_of_mem m h1, h2⟩
      · rintro ⟨h1, h2⟩
        rcases List.mem_cons.mp h1 with rfl | h1
        · exact absurd hmem h2
        · exact ⟨h1, h2⟩
    · rw [dedupFirstAux, if_neg hmem]
      constructor
      · intro h
        rcases List.mem_cons.mp h with rfl | h
        · exact ⟨List.mem_cons_self x ms, hmem⟩
        · rcases (ih (m :: seen)).mp h with ⟨h1, h2⟩
          refine ⟨List.mem_cons_of_mem m h1, fun hc => h2 (List.mem_cons_of_mem m hc)⟩
      · rintro ⟨h1, h2⟩
        rcases List.mem_cons.mp h1 with rfl | h1
        · exact List.mem_cons_self x _
        · by_cases hxm : x = m
          · subst hxm; exact List.mem_cons_self x _
          · exact List.mem_cons_of_mem m ((ih (m :: seen)).mpr
              ⟨h1, fun hc => by
                rcases List.mem_cons.mp hc with h | h
                · exact hxm h
                · exact h2 h⟩)

/-- The first-occurrence dedup loop returns a list without duplicates. -/
theorem dedupFirstAux_nodup :
    ∀ (ms seen : List String), (dedupFirstAux seen ms).Nodup := by
  intro ms
  induction ms with
  | nil => intro seen; simp [dedupFirstAux]
  | cons m ms ih =>
    intro seen
    by_cases hmem : m ∈ seen
    · rw [dedupFirstAux, if_pos hmem]; exact ih seen
    · rw [dedupFirstAux, if_neg hmem]
      refine List.nodup_cons.mpr ⟨fun hc => ?_, ih (m :: seen)⟩
      exact ((mem_dedupFirstAux ms (m :: seen)).mp hc).2 (List.mem_cons_self m seen)

/-- The first-occurrence dedup loop returns a subsequence of its input:
the surviving occurrences appear in the input order. -/
theorem dedupFirstAux_sublist :
    ∀ (ms seen : List String), List.Sublist (dedupFirstAux seen ms) ms := by
  intro ms
  induction ms with
  | nil => intro seen; simp [dedupFirstAux]
  | cons m ms ih =>
    intro seen
    by_cases hmem : m ∈ seen
    · rw [dedupFirstAux, if_pos hmem]; exact (ih seen).cons m
    · rw [dedupFirstAux, if_neg hmem]; exact (ih (m :: seen)).cons₂ m

/-- `extract_k_numbers` (`code/extractor.py`) has no duplicates, keeps the
matches in first-occurrence order (it is a subsequence of the raw match
stream containing every match), and every output is a match. -/
theorem extract_k_numbers_spec (text : String) :
    (extract_k_numbers text).Nodup ∧
    List.Sublist (extract_k_numbers text) ((findallK text.data).map (fun l => String.mk l)) ∧
    ∀ m ∈ (findallK text.data).map (fun l => String.mk l), m ∈ extract_k_numbers text := by
  refine ⟨dedupFirstAux_nodup _ _, dedupFirstAux_sublist _ _, fun m hm => ?_⟩
  exact (mem_dedupFirstAux _ _).mpr ⟨hm, List.not_mem_nil m⟩

theorem alookup_addEntry (d d' : String) (pr : Nat × ExtractionResult)
    (acc : List (String × List (Nat × ExtractionResult))) :
    alookup d' (addEntry d pr acc) =
      if d = d' then some ((alookup d acc).getD [] ++ [pr]) else alookup d' acc := by
  induction acc with
  | nil =>
    by_cases h : d = d' <;> simp [addEntry, alookup, h]
  | cons q rest ih =>
    obtain ⟨k, v⟩ := q
    by_cases hkd : k = d
    · subst hkd
      by_cases hdd : k = d'
      · subst hdd
        simp [addEntry, alookup]
      · simp [addEntry, alookup, hdd, Ne.symm hdd]
    · by_cases hkd' : k = d'
      · subst hkd'
        have hdd : d ≠ k := fun h => hkd h.symm
        simp [addEntry, alookup, hkd, hdd]
      · simp [addEntry, alookup, hkd, hkd', ih]

theorem eligPairs_nil (d : String) : eligPairs [] d = [] := rfl

theorem eligPairs_cons (o : Option ExtractionResult)
    (rs : List (Option ExtractionResult)) (d : String) :
    eligPairs (o :: rs) d =
      match o with
      | none => eligPairs rs d
      | some r =>
        if errorFalsy r.error ∧ r.device_id = d then
          (priorityOf r.type, r) :: eligPairs rs d
        else eligPairs rs d := by
  cases o with
  | none => simp [eligPairs, eligResults]
  | some r =>
    by_cases he : errorFalsy r.error
    · by_cases hd : r.device_id = d
      · simp [eligPairs, eligResults, he, hd]
      · simp [eligPairs, eligResults, he, hd]
    · simp [eligPairs, eligResults, he]

theorem alookup_byDevice_foldl (d : String) :
    ∀ (l : List (Option ExtractionResult))
      (acc : List (String × List (Nat × ExtractionResult))),
      alookup d (List.foldl byDeviceStep acc l) =
        combineBucket (alookup d acc) (eligPairs l d) := by
  intro l
  induction l with
  | nil =>
    intro acc
    cases h : alookup d acc <;> simp [eligPairs_nil, combineBucket, h]
  | cons o l ih =>
    intro acc
    rw [List.foldl_cons, ih, eligPairs_cons]
    cases o with
    | none => rfl
    | some r =>
      by_cases he : errorFalsy r.error
      · by_cases hd : r.device_id = d
        · have : byDeviceStep acc (some r) = addEntry r.device_id (priorityOf r.type, r) acc := by
            simp [byDeviceStep, he]
          rw [this, alookup_addEntry, if_pos hd]
          simp only [he, hd, and_self, if_true]
          cases hacc : alookup d acc with
          | none => simp [combineBucket]
          | some v => simp [combineBucket]
        · have : byDeviceStep acc (some r) = addEntry r.device_id (priorityOf r.type, r) acc := by
            simp [byDeviceStep, he]
          rw [this, alookup_addEntry, if_neg hd]
          simp [he, hd]
      · have : byDeviceStep acc (some r) = acc := by simp [byDeviceStep, he]
        rw [this]
        simp [he]

theorem alookup_byDevice (rs : List (Option ExtractionResult)) (d : String) :
    alookup d (byDevice rs) =
      if eligPairs rs d = [] then none else some (eligPairs rs d) := by
  rw [byDevice, alookup_byDevice_foldl]
  rfl

/-- Buckets created by the grouping loop are never empty. -/
theorem byDevice_buckets_ne_nil (rs : List (Option ExtractionResult)) :
    ∀ p ∈ byDevice rs, p.2 ≠ [] := by
  have haddEntry : ∀ (d : String) (pr : Nat × ExtractionResult)
      (acc : List (String × List (Nat × ExtractionResult))),
      (∀ p ∈ acc, p.2 ≠ []) → ∀ p ∈ addEntry d pr acc, p.2 ≠ [] := by
    intro d pr acc
    induction acc with
    | nil => intro _ p hp; simp [addEntry] at hp; subst hp; simp
    | cons q rest ih =>
      intro hacc p hp
      rw [addEntry] at hp
      by_cases hq : q.1 = d
      · rw [if_pos hq] at hp
        rcases List.mem_cons.mp hp with rfl | hp
        · simp
        · exact hacc p (List.mem_cons_of_mem q hp)
      · rw [if_neg hq] at hp
        rcases List.mem_cons.mp hp with rfl | hp
        · exact hacc _ (List.mem_cons_self _ _)
        · exact ih (fun p' hp' => hacc p' (List.mem_cons_of_mem q hp')) p hp
  have hfold : ∀ (l : List (Option ExtractionResult))
      (acc : List (String × List (Nat × ExtractionResult))),
      (∀ p ∈ acc, p.2 ≠ []) → ∀ p ∈ List.foldl byDeviceStep acc l, p.2 ≠ [] := by
    intro l
    induction l with
    | nil => intro acc hacc; exact hacc
    | cons o l ih =>
      intro acc hacc
      refine ih (byDeviceStep acc o) ?_
      cases o with
      | none => exact hacc
      | some r =>
        by_cases he : errorFalsy r.error
        · simpa [byDeviceStep, he] using haddEntry r.device_id (priorityOf r.type, r) acc hacc
        · simpa [byDeviceStep, he] using hacc
  exact hfold rs [] (by simp)

/-- Keys added by `addEntry`. -/
theorem keys_addEntry (d : String) (pr : Nat × ExtractionResult)
    (acc : List (String × List (Nat × ExtractionResult))) :
    (addEntry d pr acc).map Prod.fst =
      if d ∈ acc.map Prod.fst then acc.map Prod.fst else acc.map Prod.fst ++ [d] := by
  induction acc with
  | nil => simp [addEntry]
  | cons q rest ih =>
    by_cases hq : q.1 = d
    · subst hq
      simp [addEntry]
    · rw [addEntry, if_neg hq]
      have hne : d ≠ q.1 := fun h => hq h.symm
      by_cases hmem : d ∈ rest.map Prod.fst
      · simp [hmem, hne, ih]
      · simp [hmem, hne, ih]

/-- The grouping loop produces a dict: its keys are distinct. -/
theorem byDevice_keys_nodup (rs : List (Option ExtractionResult)) :
    ((byDevice rs).map Prod.fst).Nodup := by
  have hfold : ∀ (l : List (Option ExtractionResult))
      (acc : List (String × List (Nat × ExtractionResult))),
      (acc.map Prod.fst).Nodup → ((List.foldl byDeviceStep acc l).map Prod.fst).Nodup := by
    intro l
    induction l with
    | nil => intro acc hacc; exact hacc
    | cons o l ih =>
      intro acc hacc
      refine ih (byDeviceStep acc o) ?_
      cases o with
      | none => exact hacc
      | some r =>
        by_cases he : errorFalsy r.error
        · rw [byDeviceStep]
          simp only [he, if_true]
          rw [keys_addEntry]
          by_cases hmem : r.device_id ∈ acc.map Prod.fst
          · simpa [hmem] using hacc
          · rw [if_neg hmem]
            refine List.nodup_append.mpr ⟨hacc, List.nodup_singleton _, ?_⟩
            intro a ha hb
            rcases List.mem_singleton.mp hb with rfl
            exact hmem ha
        · simpa [byDeviceStep, he] using hacc
  exact hfold rs [] (by simp)

theorem alookup_cons {α : Type} (k : String) (x : String × α) (l : List (String × α)) :
    alookup k (x :: l) = if x.1 = k then some x.2 else alookup k l := by
  obtain ⟨k', v⟩ := x
  rfl

/-- A successful lookup returns a stored value. -/
theorem alookup_mem {α : Type} {k : String} {v : α} :
    ∀ {l : List (String × α)}, alookup k l = some v → v ∈ l.map Prod.snd := by
  intro l
  induction l with
  | nil => intro h; simp [alookup] at h
  | cons x rest ih =>
    intro h
    rw [alookup_cons] at h
    by_cases hx : x.1 = k
    · rw [if_pos hx] at h
      simp only [List.map_cons, List.mem_cons]
      exact Or.inl (Option.some.inj h).symm
    · rw [if_neg hx] at h
      exact List.mem_cons_of_mem _ (ih h)

theorem insertSortedAgg_perm (p : String × AggEntry) (l : List (String × AggEntry)) :
    List.Perm (insertSortedAgg p l) (p :: l) := by
  induction l with
  | nil => exact List.Perm.refl _
  | cons q rest ih =>
    rw [insertSortedAgg]
    by_cases hq : q.1 < p.1
    · rw [if_pos hq]
      exact (ih.cons q).trans (List.Perm.swap p q rest)
    · rw [if_neg hq]

theorem sortByKeyAgg_perm (l : List (String × AggEntry)) :
    List.Perm (sortByKeyAgg l) l := by
  induction l with
  | nil => exact List.Perm.refl _
  | cons x rest ih =>
    exact (insertSortedAgg_perm x (sortByKeyAgg rest)).trans (ih.cons x)

/-- Lookup is stable under permutation of an association list whose keys
are distinct. -/
theorem alookup_eq_of_perm {α : Type} (k : String) {l l' : List (String × α)}
    (h : List.Perm l l') (hnd : (l.map Prod.fst).Nodup) :
    alookup k l = alookup k l' := by
  induction h with
  | nil => rfl
  | cons x h ih =>
    rw [alookup_cons, alookup_cons]
    rw [List.map_cons] at hnd
    have hnd' := (List.nodup_cons.mp hnd).2
    by_cases hx : x.1 = k
    · simp [hx]
    · simp only [hx, if_false]
      exact ih hnd'
  | swap x y l =>
    rw [alookup_cons, alookup_cons, alookup_cons, alookup_cons]
    rw [List.map_cons, List.map_cons] at hnd
    have hxy : y.1 ≠ x.1 := fun hc =>
      (List.nodup_cons.mp hnd).1 (by rw [hc]; exact List.mem_cons_self _ _)
    by_cases hy : y.1 = k
    · have hx : x.1 ≠ k := fun hc => hxy (hy.trans hc.symm)
      simp [hy, hx]
    · by_cases hx : x.1 = k
      · simp [hy, hx]
      · simp [hy, hx]
  | trans h₁ h₂ ih₁ ih₂ =>
    have hnd₂ := (List.Perm.nodup_iff (h₁.map Prod.fst)).mp hnd
    exact (ih₁ hnd).trans (ih₂ hnd₂)

/-- Keys surviving `selectBest` form a subsequence of the original keys. -/
theorem keys_filterMap_selectBest (l : List (String × List (Nat × ExtractionResult))) :
    List.Sublist ((l.filterMap selectBest).map Prod.fst) (l.map Prod.fst) := by
  induction l with
  | nil => simp
  | cons p rest ih =>
    cases hv : p.2 with
    | nil =>
      have : selectBest p = none := by rw [selectBest, hv]
      rw [List.filterMap_cons, this]
      exact ih.cons p.1
    | cons e es =>
      have : selectBest p = some (p.1, mkAggEntry (pyMinBy e es).2) := by
        rw [selectBest, hv]
      rw [List.filterMap_cons, this]
      exact ih.cons₂ p.1

theorem alookup_filterMap_selectBest (d : String) :
    ∀ (l : List (String × List (Nat × ExtractionResult))),
      (∀ p ∈ l, p.2 ≠ []) →
      alookup d (l.filterMap selectBest) =
        (alookup d l).bind (fun v => (selectBest (d, v)).map Prod.snd) := by
  intro l
  induction l with
  | nil => intro _; rfl
  | cons p rest ih =>
    intro hne
    have hp2 : p.2 ≠ [] := hne p (List.mem_cons_self _ _)
    cases hv : p.2 with
    | nil => exact absurd hv hp2
    | cons e es =>
      have hsel : selectBest p = some (p.1, mkAggEntry (pyMinBy e es).2) := by
        rw [selectBest, hv]
      rw [List.filterMap_cons, hsel, alookup_cons, alookup_cons]
      dsimp only
      by_cases hd : p.1 = d
      · rw [if_pos hd, if_pos hd, hv]
        rfl
      · rw [if_neg hd, if_neg hd]
        exact ih (fun q hq => hne q (List.mem_cons_of_mem p hq))

/-- The aggregated value of device `d` is the priority-minimum of its
error-free results (ties to the earliest). -/
theorem alookup_aggregate (rs : List (Option ExtractionResult)) (d : String) :
    alookup d (aggregate_predicates rs) =
      match eligPairs rs d with
      | [] => none
      | e :: es => some (mkAggEntry (pyMinBy e es).2) := by
  have hkeysBD := byDevice_keys_nodup rs
  have hkeysA : (((byDevice rs).filterMap selectBest).map Prod.fst).Nodup :=
    List.Nodup.sublist (keys_filterMap_selectBest (byDevice rs)) hkeysBD
  have hperm := sortByKeyAgg_perm ((byDevice rs).filterMap selectBest)
  have hndsort : ((sortByKeyAgg ((byDevice rs).filterMap selectBest)).map Prod.fst).Nodup :=
    (List.Perm.nodup_iff (hperm.map Prod.fst)).mpr hkeysA
  rw [aggregate_predicates, alookup_eq_of_perm d hperm hndsort,
    alookup_filterMap_selectBest d _ (byDevice_buckets_ne_nil rs), alookup_byDevice]
  cases heg : eligPairs rs d with
  | nil => simp
  | cons e es =>
    rw [if_neg (by simp : ¬(e :: es : List (Nat × ExtractionResult)) = [])]
    rfl

/-- A permutation matching a two-element list is one of its two orders. -/
theorem perm_pair_cases {α : Type} {a b : α} {l : List α}
    (h : List.Perm l [a, b]) : l = [a, b] ∨ l = [b, a] := by
  have hlen : l.length = 2 := by simpa using h.length_eq
  match l, hlen with
  | [x, y], _ =>
    have hx : x ∈ [a, b] := h.mem_iff.mp (List.mem_cons_self _ _)
    rcases List.mem_cons.mp hx with rfl | hx
    · have h' : List.Perm [y] [b] := h.cons_inv
      left
      rw [List.perm_singleton.mp h']
    · rcases List.mem_singleton.mp hx with rfl
      have h2 : List.Perm [x, y] [x, a] := h.trans (List.Perm.swap x a [])
      have h' : List.Perm [y] [a] := h2.cons_inv
      right
      rw [List.perm_singleton.mp h']

/-- Permuting the input permutes each device's error-free results. -/
theorem eligResults_perm {rs' rs : List (Option ExtractionResult)}
    (h : List.Perm rs' rs) (d : String) :
    List.Perm (eligResults rs' d) (eligResults rs d) :=
  (h.filterMap _).filter _

/-- Among exactly two error-free results at distinct priorities, the
aggregate winner is the one with the strictly smaller priority, in
either input order. -/
theorem aggregate_winner_of_two (rs : List (Option ExtractionResult)) (d : String)
    (r1 r2 : ExtractionResult)
    (helig : List.Perm (eligResults rs d) [r1, r2])
    (hp : priorityOf r1.type < priorityOf r2.type) :
    alookup d (aggregate_predicates rs) = some (mkAggEntry r1) := by
  rw [alookup_aggregate]
  rcases perm_pair_cases helig with hcase | hcase
  · rw [show eligPairs rs d =
        [(priorityOf r1.type, r1), (priorityOf r2.type, r2)] by
      rw [eligPairs, hcase]; rfl]
    simp only [pyMinBy, if_neg (Nat.not_lt.mpr hp.le)]
  · rw [show eligPairs rs d =
        [(priorityOf r2.type, r2), (priorityOf r1.type, r1)] by
      rw [eligPairs, hcase]; rfl]
    simp only [pyMinBy, if_pos hp]

/-- A device whose only error-free result is `r` aggregates to `r`. -/
theorem aggregate_winner_of_one (rs : List (Option ExtractionResult)) (d : String)
    (r : ExtractionResult) (helig : List.Perm (eligResults rs d) [r]) :
    alookup d (aggregate_predicates rs) = some (mkAggEntry r) := by
  rw [alookup_aggregate]
  rw [show eligPairs rs d = [(priorityOf r.type, r)] by
    rw [eligPairs, List.perm_singleton.mp helig]; rfl]
  rfl

/-- Every priority stored in `NEW_EXTRACTION_PRIORITY` is below the
default 99. -/
theorem listed_priority_lt_99 {k : String} {p : Nat}
    (h : alookup k NEW_EXTRACTION_PRIORITY = some p) : p < 99 := by
  have hmem := alookup_mem h
  have hall : ∀ q ∈ NEW_EXTRACTION_PRIORITY.map Prod.snd, q < 99 := by decide
  exact hall p hmem

/-! ### Association-list and file-system lemmas -/

theorem alookup_setEntry_ne {α : Type} {k k' : String} (v : α)
    (hne : k' ≠ k) : ∀ l : List (String × α),
    alookup k (setEntry k' v l) = alookup k l := by
  intro l
  induction l with
  | nil => rfl
  | cons x rest ih =>
    rw [show setEntry k' v (x :: rest) =
        if x.1 = k' then (x.1, v) :: rest else x :: setEntry k' v rest by
      obtain ⟨a, b⟩ := x; rfl]
    by_cases hx : x.1 = k'
    · rw [if_pos hx, alookup_cons, alookup_cons]
      have : ¬ x.1 = k := by rw [hx]; exact hne
      simp [this]
    · rw [if_neg hx, alookup_cons, alookup_cons]
      by_cases hk : x.1 = k
      · simp [hk]
      · simp [hk, ih]

theorem alookup_setEntry_self {α : Type} {k : String} (v : α) :
    ∀ l : List (String × α), (alookup k l).isSome →
    alookup k (setEntry k v l) = some v := by
  intro l
  induction l with
  | nil => intro h; simp [alookup] at h
  | cons x rest ih =>
    intro h
    rw [show setEntry k v (x :: rest) =
        if x.1 = k then (x.1, v) :: rest else x :: setEntry k v rest by
      obtain ⟨a, b⟩ := x; rfl]
    by_cases hx : x.1 = k
    · rw [if_pos hx, alookup_cons]
      simp [hx]
    · rw [if_neg hx, alookup_cons]
      rw [alookup_cons, if_neg hx] at h
      simp [hx, ih h]

theorem alookup_append_single_ne {α : Type} {k k' : String} (v : α)
    (hne : k' ≠ k) : ∀ l : List (String × α),
    alookup k (l ++ [(k', v)]) = alookup k l := by
  intro l
  induction l with
  | nil => simp [alookup, hne]
  | cons x rest ih =>
    rw [List.cons_append, alookup_cons, alookup_cons]
    by_cases hx : x.1 = k
    · simp [hx]
    · simp [hx, ih]

theorem alookup_dinsert_ne {α : Type} {k k' : String} (v : α)
    (hne : k' ≠ k) (l : List (String × α)) :
    alookup k (dinsert k' v l) = alookup k l := by
  rw [dinsert]
  by_cases h : (alookup k' l).isSome
  · rw [if_pos h]; exact alookup_setEntry_ne v hne l
  · rw [if_neg h]; exact alookup_append_single_ne v hne l

theorem alookup_append_single_self {α : Type} {k : String} (v : α) :
    ∀ l : List (String × α), alookup k l = none →
    alookup k (l ++ [(k, v)]) = some v := by
  intro l
  induction l with
  | nil => intro _; simp [alookup]
  | cons x rest ih =>
    intro h
    rw [alookup_cons] at h
    rw [List.cons_append, alookup_cons]
    by_cases hx : x.1 = k
    · rw [if_pos hx] at h; exact absurd h (by simp)
    · rw [if_neg hx] at h
      simp [hx, ih h]

theorem alookup_dinsert_self {α : Type} {k : String} (v : α)
    (l : List (String × α)) : alookup k (dinsert k v l) = some v := by
  rw [dinsert]
  by_cases h : (alookup k l).isSome
  · rw [if_pos h]; exact alookup_setEntry_self v l h
  · rw [if_neg h]
    exact alookup_append_single_self v l (Option.not_isSome_iff_eq_none.mp h)

theorem alookup_delEntry_ne {α : Type} {k k' : String}
    (hne : k' ≠ k) : ∀ l : List (String × α),
    alookup k (delEntry k' l) = alookup k l := by
  intro l
  induction l with
  | nil => rfl
  | cons x rest ih =>
    rw [show delEntry k' (x :: rest) =
        if x.1 = k' then rest else x :: delEntry k' rest by
      obtain ⟨a, b⟩ := x; rfl]
    by_cases hx : x.1 = k'
    · rw [if_pos hx, alookup_cons]
      have : ¬ x.1 = k := by rw [hx]; exact hne
      simp [this]
    · rw [if_neg hx, alookup_cons, alookup_cons]
      by_cases hk : x.1 = k
      · simp [hk]
      · simp [hk, ih]

theorem empty_string_append (s : String) : "" ++ s = s := by
  cases s
  rfl

/-- A write to a path different from `k` does not change `k`. -/
theorem alookup_applyOp_other {k : String} (fs : List (String × String)) :
    ∀ op : FsOp,
      (match op with
       | .truncate p => p ≠ k
       | .append p _ => p ≠ k
       | .rename src dst => src ≠ k ∧ dst ≠ k) →
      alookup k (applyOp fs op) = alookup k fs := by
  intro op h
  cases op with
  | truncate p => exact alookup_dinsert_ne "" h fs
  | append p c =>
    cases halo : alookup p fs with
    | some old =>
      have he : applyOp fs (FsOp.append p c) = setEntry p (old ++ c) fs := by
        rw [applyOp, halo]
      rw [he]
      exact alookup_setEntry_ne (old ++ c) h fs
    | none =>
      have he : applyOp fs (FsOp.append p c) = dinsert p c fs := by
        rw [applyOp, halo]
      rw [he]
      exact alookup_dinsert_ne c h fs
  | rename src dst =>
    cases halo : alookup src fs with
    | some c =>
      have he : applyOp fs (FsOp.rename src dst) =
          dinsert dst c (delEntry src fs) := by
        rw [applyOp, halo]
      rw [he, alookup_dinsert_ne c h.2 (delEntry src fs)]
      exact alookup_delEntry_ne h.1 fs
    | none =>
      have he : applyOp fs (FsOp.rename src dst) = fs := by
        rw [applyOp, halo]
      rw [he]

/-- C6 corrected, positive part: the `save_db` of `code/pipeline/lib.py`
(lines 96–101) is atomic.  Every proper leading slice of its operation
sequence (an interrupted save) leaves the content stored at the database
path unchanged, and the completed sequence installs exactly the new
serialized content.  The hypothesis `tmp ≠ path` holds for the real
temporary path `path.with_suffix(".tmp")` whenever the store path does
not itself end in `.tmp` (the shipped path is `data/devices.json`). -/
theorem C6_lib_save_atomic (fs : List (String × String))
    (path tmp content : String) (hne : tmp ≠ path) :
    (∀ k < 3,
      alookup path (applyOps fs ((lib_save_db_ops path tmp content).take k)) =
        alookup path fs) ∧
    alookup path (applyOps fs (lib_save_db_ops path tmp content)) = some content := by
  constructor
  · intro k hk
    interval_cases k
    · rfl
    · show alookup path (applyOp fs (FsOp.truncate tmp)) = alookup path fs
      exact alookup_applyOp_other fs (FsOp.truncate tmp) hne
    · show alookup path (applyOp (applyOp fs (FsOp.truncate tmp))
        (FsOp.append tmp content)) = alookup path fs
      rw [alookup_applyOp_other _ (FsOp.append tmp content) hne]
      exact alookup_applyOp_other fs (FsOp.truncate tmp) hne
  · have h1 : alookup tmp (dinsert tmp "" fs) = some "" :=
      alookup_dinsert_self "" fs
    have e1 : applyOp fs (FsOp.truncate tmp) = dinsert tmp "" fs := rfl
    have e2 : applyOp (dinsert tmp "" fs) (FsOp.append tmp content) =
        setEntry tmp ("" ++ content) (dinsert tmp "" fs) := by
      rw [applyOp, h1]
    have h2 : alookup tmp (setEntry tmp ("" ++ content) (dinsert tmp "" fs)) =
        some ("" ++ content) :=
      alookup_setEntry_self _ _ (by rw [h1]; rfl)
    have e3 : applyOp (setEntry tmp ("" ++ content) (dinsert tmp "" fs))
        (FsOp.rename tmp path) =
        dinsert path ("" ++ content)
          (delEntry tmp (setEntry tmp ("" ++ content) (dinsert tmp "" fs))) := by
      rw [applyOp, h2]
    show alookup path (applyOp (applyOp (applyOp fs (FsOp.truncate tmp))
      (FsOp.append tmp content)) (FsOp.rename tmp path)) = some content
    rw [e1, e2, e3, alookup_dinsert_self, empty_string_append]

/-- Witness for `C6_lib_save_atomic` at a concrete store. -/
theorem C6_witness :
    (∀ k < 3,
      alookup "devices.json"
        (applyOps [("devices.json", "OLD")]
          ((lib_save_db_ops "devices.json" "devices.tmp" "NEW").take k)) =
        alookup "devices.json" [("devices.json", "OLD")]) ∧
    alookup "devices.json"
      (applyOps [("devices.json", "OLD")]
        (lib_save_db_ops "devices.json" "devices.tmp" "NEW")) = some "NEW" :=
  C6_lib_save_atomic [("devices.json", "OLD")] "devices.json" "devices.tmp" "NEW"
    (by decide)

/-- C6 counterexample: the claim is false for the `save_db` of
`code/pipeline/db.py` (lines 66–81), which opens the store path directly
for writing.  A failure between the truncation performed by
`open(path, "w")` and the `json.dump` write leaves the store empty: the
previously persisted content `"OLD"` is destroyed. -/
theorem C6_counterexample :
    alookup "db.json"
      (applyOps [("db.json", "OLD")] ((db_save_db_ops "db.json" "NEW").take 1)) =
      some "" ∧
    alookup "db.json" [("db.json", "OLD")] = some "OLD" ∧
    some ("" : String) ≠ some "OLD" := by
  refine ⟨?_, by decide, by decide⟩
  decide

/-! ### Graph-building lemmas -/

theorem foldl_append_init {α β : Type} (g : α → List β) :
    ∀ (l : List α) (acc : List β),
      List.foldl (fun acc p => acc ++ g p) acc l =
        acc ++ List.foldl (fun acc p => acc ++ g p) [] l := by
  intro l
  induction l with
  | nil => intro acc; simp
  | cons p rest ih =>
    intro acc
    rw [List.foldl_cons, List.foldl_cons, List.nil_append, ih (acc ++ g p),
      ih (g p), List.append_assoc]

theorem build_edges_cons (p : String × List String) (l : List (String × List String)) :
    build_edges (p :: l) =
      p.2.map (fun t => { source := p.1, target := t : Edge }) ++ build_edges l := by
  rw [build_edges, List.foldl_cons, List.nil_append, foldl_append_init]
  rfl

theorem build_edges_append (l₁ l₂ : List (String × List String)) :
    build_edges (l₁ ++ l₂) = build_edges l₁ ++ build_edges l₂ := by
  induction l₁ with
  | nil => simp [build_edges]
  | cons p rest ih =>
    rw [List.cons_append, build_edges_cons, build_edges_cons, ih, List.append_assoc]

theorem foldl_add_init {α : Type} (g : α → Nat) :
    ∀ (l : List α) (n : Nat),
      List.foldl (fun n p => n + g p) n l =
        n + List.foldl (fun n p => n + g p) 0 l := by
  intro l
  induction l with
  | nil => intro n; simp
  | cons p rest ih =>
    intro n
    rw [List.foldl_cons, List.foldl_cons, ih, ih (0 + g p)]
    omega

theorem count_orphans_cons (p : String × List String)
    (l : List (String × List String)) (fda : List (String × RawDevice)) :
    count_orphans (p :: l) fda =
      (p.2.filter (fun t => ¬ hasKey fda t)).length + count_orphans l fda := by
  rw [count_orphans, List.foldl_cons, foldl_add_init, Nat.zero_add]
  rfl

theorem count_orphans_append (l₁ l₂ : List (String × List String))
    (fda : List (String × RawDevice)) :
    count_orphans (l₁ ++ l₂) fda = count_orphans l₁ fda + count_orphans l₂ fda := by
  induction l₁ with
  | nil => simp [count_orphans]
  | cons p rest ih =>
    rw [List.cons_append, count_orphans_cons, count_orphans_cons, ih]
    omega

/-- Node keys are exactly the FDA-device keys. -/
theorem hasKey_map_node (fda : List (String × RawDevice)) (k : String) :
    hasKey (fda.map (fun p => (p.1, extract_device_node p.2))) k = hasKey fda k := by
  induction fda with
  | nil => rfl
  | cons p rest ih =>
    rw [List.map_cons]
    rw [show hasKey ((p.1, extract_device_node p.2) ::
        rest.map (fun p => (p.1, extract_device_node p.2))) k =
        ((p.1 = k : Bool) || hasKey (rest.map (fun p => (p.1, extract_device_node p.2))) k) by
      rw [hasKey, List.any_cons]; rfl]
    rw [show hasKey (p :: rest) k = ((p.1 = k : Bool) || hasKey rest k) by
      rw [hasKey, List.any_cons]; rfl]
    rw [ih]

/-- The targets of the exported Cytoscape edges are targets of valid
edges. -/
theorem export_cytoscape_edges_target {g : DeviceGraph} {ce : CytoEdge}
    (hce : ce ∈ export_cytoscape_edges g) :
    ∃ e ∈ valid_edges g, ce.target = e.target := by
  rw [export_cytoscape_edges] at hce
  rcases List.mem_map.mp hce with ⟨p, hp, rfl⟩
  refine ⟨p.2, ?_, rfl⟩
  have := List.mem_map_of_mem Prod.snd hp
  rwa [List.enum_map_snd] at this

/-- C7 confirmed: an aggregated predicate entry whose target (for
example `"K999999"`) is not among the dataset nodes yields an edge that
is kept in the raw graph (and hence the raw export, which serializes the
graph as-is), makes `orphan_predicates` exactly one larger than the same
build without it, and is dropped from the node-consistent Cytoscape
export. -/
theorem C7_orphan_edge_handling (results : List RawDevice)
    (preds₁ preds₂ : List (String × List String)) (src tgt : String)
    (l : List String) (now : String)
    (htgt : hasKey (load_fda_data results) tgt = false) :
    ({ source := src, target := tgt : Edge } ∈
      (build_graph results (preds₁ ++ (src, l ++ [tgt]) :: preds₂) now).edges) ∧
    (build_graph results (preds₁ ++ (src, l ++ [tgt]) :: preds₂) now).metadata.orphan_predicates =
      (build_graph results (preds₁ ++ (src, l) :: preds₂) now).metadata.orphan_predicates + 1 ∧
    ∀ ce ∈ export_cytoscape_edges
        (build_graph results (preds₁ ++ (src, l ++ [tgt]) :: preds₂) now),
      ce.target ≠ tgt := by
  refine ⟨?_, ?_, ?_⟩
  · show _ ∈ build_edges (preds₁ ++ (src, l ++ [tgt]) :: preds₂)
    rw [build_edges_append, build_edges_cons]
    refine List.mem_append_right _ (List.mem_append_left _ ?_)
    exact List.mem_map_of_mem _ (List.mem_append_right l (List.mem_singleton.mpr rfl))
  · show count_orphans (preds₁ ++ (src, l ++ [tgt]) :: preds₂) (load_fda_data results) =
      count_orphans (preds₁ ++ (src, l) :: preds₂) (load_fda_data results) + 1
    rw [count_orphans_append, count_orphans_append, count_orphans_cons,
      count_orphans_cons]
    dsimp only
    rw [List.filter_append]
    have hsingle : [tgt].filter (fun t => ¬ hasKey (load_fda_data results) t) = [tgt] := by
      simp [List.filter, htgt]
    rw [hsingle, List.length_append, List.length_singleton]
    omega
  · intro ce hce hcet
    rcases export_cytoscape_edges_target hce with ⟨e, he, het⟩
    have hkey : hasKey (build_graph results (preds₁ ++ (src, l ++ [tgt]) :: preds₂) now).nodes
        e.target = true := by
      rcases List.mem_filter.mp he with ⟨_, hcond⟩
      exact (Bool.and_eq_true _ _ |>.mp hcond).2
    rw [show (build_graph results (preds₁ ++ (src, l ++ [tgt]) :: preds₂) now).nodes =
        (load_fda_data results).map (fun p => (p.1, extract_device_node p.2)) from rfl,
      hasKey_map_node] at hkey
    have hetgt : e.target = tgt := het.symm.trans hcet
    rw [hetgt, htgt] at hkey
    exact Bool.false_ne_true hkey

/-- Witness for `C7_orphan_edge_handling`: a one-node dataset whose
device cites the absent `"K999999"`. -/
theorem C7_witness :
    ({ source := "K000001", target := "K999999" : Edge } ∈
      (build_graph [{ k_number := some "K000001" }]
        ([] ++ ("K000001", [] ++ ["K999999"]) :: []) "t").edges) ∧
    (build_graph [{ k_number := some "K000001" }]
        ([] ++ ("K000001", [] ++ ["K999999"]) :: []) "t").metadata.orphan_predicates =
      (build_graph [{ k_number := some "K000001" }]
        ([] ++ ("K000001", []) :: []) "t").metadata.orphan_predicates + 1 ∧
    ∀ ce ∈ export_cytoscape_edges
        (build_graph [{ k_number := some "K000001" }]
          ([] ++ ("K000001", [] ++ ["K999999"]) :: []) "t"),
      ce.target ≠ "K999999" :=
  C7_orphan_edge_handling [{ k_number := some "K000001" }] [] [] "K000001" "K999999"
    [] "t" (by decide)

/-- C3 counterexample: `build_graph` stamps `generated_at` with the wall
clock (`graph.py` line 196), so two runs over the same snapshot and
predicates at different times produce different graph exports. -/
theorem C3_counterexample :
    build_graph [] [] "2026-01-01T00:00:00+00:00" ≠
      build_graph [] [] "2026-01-02T00:00:00+00:00" := by
  decide

/-- C3 corrected: apart from the `generated_at` timestamp, `build_graph`
and both exports are deterministic functions of the dataset snapshot and
the reconciled predicates — rerunning on unchanged inputs reproduces the
same nodes, edges, counts and Cytoscape element list. -/
theorem C3_graph_deterministic_except_timestamp (results : List RawDevice)
    (predicates : List (String × List String)) (t1 t2 : String) :
    (build_graph results predicates t1).nodes = (build_graph results predicates t2).nodes ∧
    (build_graph results predicates t1).edges = (build_graph results predicates t2).edges ∧
    (build_graph results predicates t1).metadata.total_nodes =
      (build_graph results predicates t2).metadata.total_nodes ∧
    (build_graph results predicates t1).metadata.total_edges =
      (build_graph results predicates t2).metadata.total_edges ∧
    (build_graph results predicates t1).metadata.nodes_with_predicates =
      (build_graph results predicates t2).metadata.nodes_with_predicates ∧
    (build_graph results predicates t1).metadata.nodes_without_predicates =
      (build_graph results predicates t2).metadata.nodes_without_predicates ∧
    (build_graph results predicates t1).metadata.orphan_predicates =
      (build_graph results predicates t2).metadata.orphan_predicates ∧
    export_cytoscape_edges (build_graph results predicates t1) =
      export_cytoscape_edges (build_graph results predicates t2) :=
  ⟨rfl, rfl, rfl, rfl, rfl, rfl, rfl, rfl⟩

/-! ### Device-database lemmas -/

theorem insertSortedStr_perm (s : String) (l : List String) :
    List.Perm (insertSortedStr s l) (s :: l) := by
  induction l with
  | nil => exact List.Perm.refl _
  | cons t rest ih =>
    rw [insertSortedStr]
    by_cases ht : t < s
    · rw [if_pos ht]
      exact (ih.cons t).trans (List.Perm.swap s t rest)
    · rw [if_neg ht]

theorem sortStrings_perm (l : List String) :
    List.Perm (sortStrings l) l := by
  induction l with
  | nil => exact List.Perm.refl _
  | cons x rest ih =>
    exact (insertSortedStr_perm x (sortStrings rest)).trans (ih.cons x)

theorem mem_sortStrings {x : String} {l : List String} :
    x ∈ sortStrings l ↔ x ∈ l :=
  (sortStrings_perm l).mem_iff

theorem alookup_none_of_not_mem_keys {α : Type} {k : String} :
    ∀ {l : List (String × α)}, k ∉ l.map Prod.fst → alookup k l = none := by
  intro l
  induction l with
  | nil => intro _; rfl
  | cons x rest ih =>
    intro h
    rw [List.map_cons] at h
    rw [alookup_cons, if_neg (fun hc => h (by rw [hc]; exact List.mem_cons_self _ _))]
    exact ih (fun hc => h (List.mem_cons_of_mem _ hc))

theorem alookup_of_mem_keys_nodup {α : Type} {k : String} {v : α} :
    ∀ {l : List (String × α)}, (k, v) ∈ l → (l.map Prod.fst).Nodup →
      alookup k l = some v := by
  intro l
  induction l with
  | nil => intro h _; simp at h
  | cons x rest ih =>
    intro h hnd
    rw [List.map_cons] at hnd
    rcases List.mem_cons.mp h with rfl | h
    · rw [alookup_cons, if_pos rfl]
    · rw [alookup_cons]
      have hk : ¬ x.1 = k := by
        intro hc
        exact (List.nodup_cons.mp hnd).1 (hc ▸ List.mem_map_of_mem Prod.fst h)
      rw [if_neg hk]
      exact ih h (List.nodup_cons.mp hnd).2

/-- C4 corrected: the human-verified freeze is enforced only at
scheduling.  `get_devices_needing_processing` never selects a device
whose stored entry is human-verified: its `new_devices` are keys absent
from the store, and every `reprocess` key maps to an entry with
`human_verified = False` (`db.py` lines 95–106).  The update function
itself (see `C4_counterexample`) performs no such check. -/
theorem C4_scheduling_skips_verified (db : DeviceDatabase) (fda : List String)
    (now m : Int) (hnd : (db.devices.map Prod.fst).Nodup) :
    (∀ k ∈ (get_devices_needing_processing db fda now m).1,
      alookup k db.devices = none) ∧
    (∀ k ∈ (get_devices_needing_processing db fda now m).2,
      ∃ e, alookup k db.devices = some e ∧ e.human_verified = false) := by
  constructor
  · intro k hk
    have hk' : k ∈ sortStrings
        ((fda.filter (fun k => ¬ k ∈ db.devices.map Prod.fst)).dedup) := hk
    have hk2 := List.mem_dedup.mp (mem_sortStrings.mp hk')
    have hk3 := (List.mem_filter.mp hk2).2
    exact alookup_none_of_not_mem_keys (by simpa using hk3)
  · intro k hk
    have hk' : k ∈ sortStrings (db.devices.filterMap (fun p =>
      if ¬ p.2.pdf_present then none
      else if p.2.human_verified then none
      else if p.2.extraction_method = "pymupdf" ∧ p.2.chars_per_page < 50 then
        match p.2.last_processed with
        | some t => if now - m * 30 < t then some p.1 else none
        | none => none
      else none)) := hk
    rcases List.mem_filterMap.mp (mem_sortStrings.mp hk') with ⟨⟨k0, e⟩, hpmem, hfp⟩
    dsimp only at hfp
    by_cases h1 : ¬ e.pdf_present
    · rw [if_pos h1] at hfp; exact absurd hfp (by simp)
    rw [if_neg h1] at hfp
    by_cases h2 : e.human_verified
    · rw [if_pos h2] at hfp; exact absurd hfp (by simp)
    rw [if_neg h2] at hfp
    by_cases h3 : e.extraction_method = "pymupdf" ∧ e.chars_per_page < 50
    · rw [if_pos h3] at hfp
      cases hlast : e.last_processed with
      | none => rw [hlast] at hfp; exact absurd hfp (by simp)
      | some t =>
        rw [hlast] at hfp
        dsimp only at hfp
        by_cases h4 : now - m * 30 < t
        · rw [if_pos h4] at hfp
          have hk0 : k0 = k := Option.some.inj hfp
          subst hk0
          exact ⟨e, alookup_of_mem_keys_nodup hpmem hnd,
            Bool.eq_false_iff.mpr h2⟩
        · rw [if_neg h4] at hfp; exact absurd hfp (by simp)
    · rw [if_neg h3] at hfp; exact absurd hfp (by simp)

/-- Witness for `C4_scheduling_skips_verified`: a store with one
reprocess candidate, diffed against a one-element dataset. -/
theorem C4_witness :
    (alookup "K000003"
      (DeviceDatabase.mk [("K000002",
        { pdf_present := true, extraction_method := "pymupdf",
          chars_per_page := 10, last_processed := some 100 })]).devices = none) ∧
    ∃ e, alookup "K000002"
        (DeviceDatabase.mk [("K000002",
          { pdf_present := true, extraction_method := "pymupdf",
            chars_per_page := 10, last_processed := some 100 })]).devices = some e ∧
      e.human_verified = false := by
  have h := C4_scheduling_skips_verified
    (DeviceDatabase.mk [("K000002",
      { pdf_present := true, extraction_method := "pymupdf",
        chars_per_page := 10, last_processed := some 100 })])
    ["K000003"] 110 2 (by decide)
  exact ⟨h.1 "K000003" (by decide), h.2 "K000002" (by decide)⟩

/-- C4 counterexample: `update_device_from_extraction` overwrites the
predicate list of a human-verified device.  Starting from a store whose
only entry is verified with predicates `["K111111"]`, one extraction
update replaces them with `["K222222"]` while the flag stays set — the
claim that no automatic update changes a verified record's predicates is
false. -/
theorem C4_counterexample :
    ((alookup "K000001" (update_device_from_extraction
        (DeviceDatabase.mk [("K000001",
          { predicates := ["K111111"], pdf_present := true, human_verified := true })])
        "K000001" ["K222222"] "pymupdf" 100 10 5 [] none none 0).devices).map
      DeviceEntry.human_verified = some true) ∧
    ((alookup "K000001" (update_device_from_extraction
        (DeviceDatabase.mk [("K000001",
          { predicates := ["K111111"], pdf_present := true, human_verified := true })])
        "K000001" ["K222222"] "pymupdf" 100 10 5 [] none none 0).devices).map
      DeviceEntry.predicates = some ["K222222"]) ∧
    some ["K222222"] ≠ some ["K111111"] := by
  refine ⟨?_, ?_, by decide⟩ <;> rfl

/-- C5 code bug: `run_stage` on a single-item batch (fewer than ten
submitted futures) crashes with `ZeroDivisionError` in its progress
print (`pipeline.py` line 114 computes `idx % (len(futures) // 10)` and
`len(futures) // 10 == 0`), instead of returning the item in
`succeeded` — so the runner does abort even though every task
succeeds. -/
theorem C5_run_stage_zero_division :
    run_stage ["K000001"] (fun _ => Except.ok {}) (fun _ => false) ["K000001"] =
      Except.error "ZeroDivisionError" := by
  rfl

/-- C2 code bug: the `extract_k_numbers` of `code/extractor.py`
deduplicates the spec's example to `["K123456", "K234567"]` in
first-occurrence order, while the `extract_k_numbers` of
`code/pipeline/extract.py` returns `list(set(matches))`, whose
enumeration order is not the first-occurrence order: an enumeration
satisfying the Python `set` contract (a permutation of the distinct
matches) can return the example's identifiers reversed, contradicting
that function's own "preserving order" docstring. -/
theorem C2_extract_k_numbers_order :
    extract_k_numbers "see K123456 ... K123456 ... K234567" =
      ["K123456", "K234567"] ∧
    ∃ enum : List String → List String,
      (∀ l : List String, List.Perm (enum l) l.dedup) ∧
      extract_k_numbers_pipeline enum "see K123456 ... K123456 ... K234567" ≠
        ["K123456", "K234567"] := by
  refine ⟨by decide, fun l => l.dedup.reverse,
    fun l => List.reverse_perm l.dedup, by decide⟩

/-- C8 counterexample: matching is not case-insensitive.  The pattern
`K\d{6}` requires a literal uppercase `K`: the lowercase spelling
`"k123456"` of an identifier yields no match at all, while the claim's
case-insensitive grammar would normalize it to `"K123456"`. -/
theorem C8_counterexample :
    extract_k_numbers "k123456" = [] ∧
    extract_k_numbers "K123456" = ["K123456"] := by
  decide

/-- C8 corrected: the accepted grammar is a literal uppercase `K`
followed by exactly six digits, matched case-sensitively and emitted
verbatim; nothing else is ever emitted. -/
theorem C8_grammar (text : String) (s : String) (hs : s ∈ extract_k_numbers text) :
    s.length = 7 ∧ s.data.head? = some 'K' ∧ ∀ c ∈ s.data.tail, isDig c = true := by
  have hsm : s ∈ (findallK text.data).map (fun l => String.mk l) :=
    ((mem_dedupFirstAux _ _).mp hs).1
  rcases List.mem_map.mp hsm with ⟨m, hm, rfl⟩
  rcases findallK_shape hm with ⟨c1, c2, c3, c4, c5, c6, rfl, h1, h2, h3, h4, h5, h6⟩
  refine ⟨rfl, rfl, ?_⟩
  intro c hc
  have hc' : c = c1 ∨ c = c2 ∨ c = c3 ∨ c = c4 ∨ c = c5 ∨ c = c6 := by
    simpa using hc
  rcases hc' with rfl | rfl | rfl | rfl | rfl | rfl <;> assumption

/-- Witness for `C8_grammar` on a concrete text and match. -/
theorem C8_witness :
    ("K123456" : String).length = 7 ∧
    ("K123456" : String).data.head? = some 'K' ∧
    ∀ c ∈ ("K123456" : String).data.tail, isDig c = true :=
  C8_grammar "see K123456 here" "K123456" (by decide)

/-- C1 confirmed: when a device's error-free results are exactly two
results whose method tags map to different priority tiers,
`aggregate_predicates` selects the one with the strictly smaller
priority number, and the winner is unchanged under any permutation of
the input list. -/
theorem C1_aggregate_prefers_lower_priority (rs : List (Option ExtractionResult))
    (d : String) (r1 r2 : ExtractionResult)
    (helig : List.Perm (eligResults rs d) [r1, r2])
    (hp : priorityOf r1.type < priorityOf r2.type) :
    alookup d (aggregate_predicates rs) = some (mkAggEntry r1) ∧
    ∀ rs' : List (Option ExtractionResult), List.Perm rs' rs →
      alookup d (aggregate_predicates rs') = some (mkAggEntry r1) :=
  ⟨aggregate_winner_of_two rs d r1 r2 helig hp,
   fun rs' hperm =>
     aggregate_winner_of_two rs' d r1 r2 ((eligResults_perm hperm d).trans helig) hp⟩

/-- Witness for `C1_aggregate_prefers_lower_priority`: a human-override
result beats a regex result for the same device. -/
theorem C1_witness :
    alookup "K000001" (aggregate_predicates [some exHuman, some exRegex]) =
      some (mkAggEntry exHuman) ∧
    ∀ rs' : List (Option ExtractionResult),
      List.Perm rs' [some exHuman, some exRegex] →
      alookup "K000001" (aggregate_predicates rs') = some (mkAggEntry exHuman) :=
  C1_aggregate_prefers_lower_priority [some exHuman, some exRegex] "K000001"
    exHuman exRegex (by decide) (by decide)

/-- C10 confirmed: an error-free result whose `type` key is absent from
`NEW_EXTRACTION_PRIORITY` is kept with the default priority 99
(`dict.get(key, 99)`): it wins for its device when it is the only
error-free result, and loses to any result whose tag is listed in the
table (all listed priorities are below 99). -/
theorem C10_default_priority_keeps_result (r : ExtractionResult)
    (hu : alookup r.type NEW_EXTRACTION_PRIORITY = none) :
    priorityOf r.type = 99 ∧
    (∀ (rs : List (Option ExtractionResult)) (d : String),
      List.Perm (eligResults rs d) [r] →
      alookup d (aggregate_predicates rs) = some (mkAggEntry r)) ∧
    (∀ (rs : List (Option ExtractionResult)) (d : String)
        (rl : ExtractionResult) (p : Nat),
      alookup rl.type NEW_EXTRACTION_PRIORITY = some p →
      List.Perm (eligResults rs d) [r, rl] →
      alookup d (aggregate_predicates rs) = some (mkAggEntry rl)) := by
  refine ⟨by rw [priorityOf, hu], fun rs d h => aggregate_winner_of_one rs d r h,
    fun rs d rl p hl hperm => ?_⟩
  have hpl : priorityOf rl.type < priorityOf r.type := by
    rw [priorityOf, hl, priorityOf, hu]
    exact listed_priority_lt_99 hl
  exact aggregate_winner_of_two rs d rl r (hperm.trans (List.Perm.swap rl r [])) hpl

/-- Witness for `C10_default_priority_keeps_result`: the tag
`"regex_ministral"` (used by the `pipeline.py` priority table but absent
from the `aggregate.py` one) gets priority 99, wins alone, and loses to
a listed human override. -/
theorem C10_witness :
    priorityOf exUnlisted.type = 99 ∧
    alookup "K000002" (aggregate_predicates [some exUnlisted]) =
      some (mkAggEntry exUnlisted) ∧
    alookup "K000002" (aggregate_predicates [some exUnlisted, some exHuman2]) =
      some (mkAggEntry exHuman2) := by
  have h := C10_default_priority_keeps_result exUnlisted (by decide)
  exact ⟨h.1, h.2.1 [some exUnlisted] "K000002" (by decide),
    h.2.2 [some exUnlisted, some exHuman2] "K000002" exHuman2 0 (by decide) (by decide)⟩

/-! ### Longest-chain search lemmas -/

/-- A nodup list of elements of `V` is no longer than `V`. -/
theorem nodup_subset_length_le {p V : List String}
    (hnd : p.Nodup) (hsub : ∀ x ∈ p, x ∈ V) : p.length ≤ V.length := by
  have h1 : p.toFinset.card = p.length := List.toFinset_card_of_nodup hnd
  have h2 : p.toFinset ⊆ V.toFinset := fun x hx =>
    List.mem_toFinset.mpr (hsub x (List.mem_toFinset.mp hx))
  have h3 : V.toFinset.card ≤ V.length := List.toFinset_card_le V
  calc p.length = p.toFinset.card := h1.symm
    _ ≤ V.toFinset.card := Finset.card_le_card h2
    _ ≤ V.length := h3

/-- Extending a simple path by an unvisited successor of its last node
keeps it a simple path. -/
theorem GoodPath.extend {succs : String → List String} {start : String}
    {path : List String} {node s : String}
    (hgood : GoodPath succs start path) (hlast : path.getLast? = some node)
    (hs : s ∈ succs node) (hsp : s ∉ path) :
    GoodPath succs start (path ++ [s]) := by
  obtain ⟨hnd, hchain, hhead⟩ := hgood
  refine ⟨?_, ?_, ?_⟩
  · rw [List.nodup_append]
    exact ⟨hnd, List.nodup_singleton s, fun a ha hb => by
      rcases List.mem_singleton.mp hb with rfl
      exact hsp ha⟩
  · refine List.Chain'.append hchain (List.chain'_singleton s) ?_
    intro x hx y hy
    rw [hlast] at hx
    rcases Option.mem_some_iff.mp hx with rfl
    rcases Option.mem_some_iff.mp (by simpa using hy) with rfl
    exact hs
  · cases path with
    | nil => simp at hlast
    | cons a rest => simpa using hhead

/-- The invariant proof for the depth-first search of
`_find_longest_path_from_node`: with enough fuel the search returns
(never exhausts the fuel), and the returned value is a simple directed
path from the start node.  The fuel bound works because the current path
is simple and stays inside `V`, so its length never exceeds
`V.length`. -/
theorem dfs_spec (succs : String → List String) (V : List String) (start : String)
    (hclosed : ∀ n s, s ∈ succs n → s ∈ V) :
    ∀ fuel : Nat, ∀ node path longest,
      path.getLast? = some node →
      GoodPath succs start path →
      (∀ x ∈ path, x ∈ V) →
      GoodPath succs start longest →
      V.length + 1 ≤ fuel + path.length →
      ∃ l, dfsAux succs fuel node path longest = some l ∧ GoodPath succs start l := by
  intro fuel
  induction fuel with
  | zero =>
    intro node path longest hlast hgood hsub hglong hfuel
    exfalso
    have := nodup_subset_length_le hgood.1 hsub
    omega
  | succ fuel ih =>
    have loop_spec : ∀ (ss : List String), ∀ path longest node,
        path.getLast? = some node →
        GoodPath succs start path →
        (∀ x ∈ path, x ∈ V) →
        (∀ s ∈ ss, s ∈ succs node) →
        GoodPath succs start longest →
        V.length + 1 ≤ fuel + path.length + 1 →
        ∃ l, dfsLoop succs fuel ss path longest = some l ∧
          GoodPath succs start l := by
      intro ss
      induction ss with
      | nil =>
        intro path longest node _ _ _ _ hglong _
        exact ⟨longest, by rw [dfsLoop], hglong⟩
      | cons s ss ihs =>
        intro path longest node hlast hgood hsub hss hglong hfuel
        rw [dfsLoop]
        by_cases hsp : s ∈ path
        · rw [if_pos hsp]
          exact ihs path longest node hlast hgood hsub
            (fun t ht => hss t (List.mem_cons_of_mem s ht)) hglong hfuel
        · rw [if_neg hsp]
          have hsV : s ∈ V := hclosed node s (hss s (List.mem_cons_self s ss))
          have hgood' : GoodPath succs start (path ++ [s]) :=
            hgood.extend hlast (hss s (List.mem_cons_self s ss)) hsp
          have hlast' : (path ++ [s]).getLast? = some s := by
            rw [List.getLast?_append]
            rfl
          have hsub' : ∀ x ∈ path ++ [s], x ∈ V := by
            intro x hx
            rcases List.mem_append.mp hx with hx | hx
            · exact hsub x hx
            · rcases List.mem_singleton.mp hx with rfl
              exact hsV
          have hfuel' : V.length + 1 ≤ fuel + (path ++ [s]).length := by
            rw [List.length_append, List.length_singleton]
            omega
          obtain ⟨l, hl, hgl⟩ := ih s (path ++ [s]) longest hlast' hgood' hsub'
            hglong hfuel'
          rw [hl]
          exact ihs path l node hlast hgood hsub
            (fun t ht => hss t (List.mem_cons_of_mem s ht)) hgl hfuel
    intro node path longest hlast hgood hsub hglong hfuel
    rw [dfsAux]
    cases hsuccs : succs node with
    | nil =>
      refine ⟨_, rfl, ?_⟩
      by_cases hlt : longest.length < path.length
      · rw [if_pos hlt]; exact hgood
      · rw [if_neg hlt]; exact hglong
    | cons s ss =>
      obtain ⟨l, hl, hgl⟩ := loop_spec (s :: ss) path longest node hlast hgood hsub
        (fun t ht => hsuccs ▸ ht) hglong (by omega)
      dsimp only
      rw [hl]
      refine ⟨_, rfl, ?_⟩
      by_cases hlt : l.length < path.length
      · rw [if_pos hlt]; exact hgood
      · rw [if_neg hlt]; exact hgl

/-- C9 confirmed: on every finite directed graph — cycles included — and
every start node of the graph, `_find_longest_path_from_node` terminates
(the fuel `V.length + 1` is never exhausted, so the Python recursion
bottoms out) and returns a simple directed path starting at the start
node: no node is revisited within the returned path. -/
theorem C9_longest_path_terminates_simple (succs : String → List String)
    (V : List String) (start : String)
    (hclosed : ∀ n s, s ∈ succs n → s ∈ V) (hstart : start ∈ V) :
    ∃ p, find_longest_path_from_node succs V start = some p ∧
      p.Nodup ∧ List.Chain' (fun a b => b ∈ succs a) p ∧
      p.head? = some start := by
  have hgood : GoodPath succs start [start] :=
    ⟨List.nodup_singleton start, List.chain'_singleton start, rfl⟩
  obtain ⟨l, hl, hgl⟩ := dfs_spec succs V start hclosed (V.length + 1) start
    [start] [start] rfl hgood
    (by intro x hx; rcases List.mem_singleton.mp hx with rfl; exact hstart)
    hgood (by simp)
  exact ⟨l, hl, hgl.1, hgl.2.1, hgl.2.2⟩

/-- Witness for `C9_longest_path_terminates_simple` on the cyclic graph
A → B → C → A: the search terminates despite the cycle and returns a
simple path from A. -/
theorem C9_witness :
    ∃ p, find_longest_path_from_node succsCycle ["A", "B", "C"] "A" = some p ∧
      p.Nodup ∧ List.Chain' (fun a b => b ∈ succsCycle a) p ∧
      p.head? = some "A" :=
  C9_longest_path_terminates_simple succsCycle ["A", "B", "C"] "A"
    (by
      intro n s hs
      rw [succsCycle] at hs
      cases halo : alookup n cycleAdj with
      | none => rw [halo] at hs; simp at hs
      | some v =>
        rw [halo] at hs
        simp only [Option.getD_some] at hs
        have hv := alookup_mem halo
        have hall : ∀ v ∈ cycleAdj.map Prod.snd, ∀ s ∈ v,
            s ∈ ["A", "B", "C"] := by decide
        exact hall v hv s hs)
    (by decide)

end Devtree

